import Mathlib

/-!
Verification of the Agent Skills discovery and secure resource resolution
engine (`agent_framework/_skills/_agent_skills_provider.py` and `_models.py`).

The Python code is shallowly embedded: strings are Lean `String`s, the
filesystem is an explicit finite map from absolute paths (segment lists) to
nodes, exceptions are `Except` values, and each helper function of the module
is translated to a Lean definition of the same name.  All definitions are
executable so that concrete scenarios can be evaluated by `decide` / `rfl`.
-/

set_option autoImplicit false
set_option maxRecDepth 10000

namespace AgentSkills

/-! ### Character and string utilities

Char-level embeddings of the Python string operations used by the module
(`str.strip`, `str.lower`, `str.upper`, `str.split`, `str.replace`,
`str.startswith`, substring membership).  They are written by structural
recursion on `String.data` so that the kernel can evaluate them.
-/

/-- Python `str.strip()` whitespace set: space, tab, newline, carriage
return, vertical tab, form feed. -/
def pyIsSpace (c : Char) : Bool :=
  c = ' ' || c = '\t' || c = '\n' || c = '\r' || c = Char.ofNat 11 || c = Char.ofNat 12

/-- Python `str.strip()` on a character list. -/
def pyStripData (cs : List Char) : List Char :=
  ((cs.dropWhile pyIsSpace).reverse.dropWhile pyIsSpace).reverse

/-- Python `str.strip()`. -/
def pyStrip (s : String) : String :=
  String.mk (pyStripData s.data)

/-- Python truthiness test `not s or not s.strip()` used throughout the
module to reject empty or whitespace-only strings. -/
def isBlank (s : String) : Bool :=
  pyStrip s = ""

/-- ASCII lower-casing of one character (`str.lower` restricted to the ASCII
range, which covers every string the module compares). -/
def lowerChar (c : Char) : Char :=
  if 'A' ≤ c && c ≤ 'Z' then Char.ofNat (c.toNat + 32) else c

/-- ASCII upper-casing of one character. -/
def upperChar (c : Char) : Char :=
  if 'a' ≤ c && c ≤ 'z' then Char.ofNat (c.toNat - 32) else c

/-- Python `str.lower()` (ASCII fragment). -/
def pyLower (s : String) : String :=
  String.mk (s.data.map lowerChar)

/-- Python `str.upper()` (ASCII fragment). -/
def pyUpper (s : String) : String :=
  String.mk (s.data.map upperChar)

/-- Helper of `splitChar`: accumulates the current segment (reversed). -/
def splitCharAux (sep : Char) (cur : List Char) : List Char → List String
  | [] => [String.mk cur.reverse]
  | c :: cs =>
    if c = sep then String.mk cur.reverse :: splitCharAux sep [] cs
    else splitCharAux sep (c :: cur) cs

/-- Python `str.split(sep)` for a one-character separator (also the semantics
of `String.splitOn` for such separators). -/
def splitChar (sep : Char) (s : String) : List String :=
  splitCharAux sep [] s.data

/-- Join a list of strings with `/` (Python `"/".join`). -/
def joinSlash : List String → String
  | [] => ""
  | [s] => s
  | s :: rest => s ++ "/" ++ joinSlash rest

/-- Join a list of strings with a newline (Python `"\n".join`). -/
def joinNL : List String → String
  | [] => ""
  | [s] => s
  | s :: rest => s ++ "\n" ++ joinNL rest

/-- Python `str.startswith`. -/
def strPrefix (p s : String) : Bool :=
  p.data.isPrefixOf s.data

/-- Python `sub in s` substring membership. -/
def containsSubAux (sub : List Char) : List Char → Bool
  | [] => sub.isPrefixOf []
  | c :: cs => sub.isPrefixOf (c :: cs) || containsSubAux sub cs

/-- Python `sub in s` substring membership. -/
def containsSub (s sub : String) : Bool :=
  containsSubAux sub.data s.data

/-- Python `path.replace("\\", "/")`. -/
def replBackslash (s : String) : String :=
  String.mk (s.data.map (fun c => if c = '\\' then '/' else c))

/-! ### Path functions

Embeddings of the pure (lexical) path operations the module relies on:
`PurePosixPath(...).as_posix()`, `os.path.normpath`, `PurePath.parts`,
`Path.is_relative_to`, `Path.__truediv__` and `PurePath.suffix`.
Absolute paths in the filesystem model are segment lists; `renderAbs`
produces the string form and `strSegs` / `pathParts` parse strings back.
-/

/-- The components of a POSIX path string, with empty and `.` components
elided, exactly as `pathlib` parses a path (`..` components are kept). -/
def posixSegs (s : String) : List String :=
  (splitChar '/' s).filter (fun seg => !(seg = "" || seg = "."))

/-- The root marker of a POSIX path string: `//` (exactly two leading
slashes), `/`, or none — the `pathlib` drive/root convention. -/
def posixRoot (s : String) : String :=
  if strPrefix "//" s && !strPrefix "///" s then "//"
  else if strPrefix "/" s then "/"
  else ""

/-- `PurePath.parts` of a path string: the root marker (when present)
followed by the non-trivial components. -/
def pathParts (s : String) : List String :=
  (if posixRoot s = "" then [] else [posixRoot s]) ++ posixSegs s

/-- The filesystem-key form of an absolute path string: its components with
the root marker dropped. -/
def strSegs (s : String) : List String :=
  posixSegs s

/-- Render an absolute path from its components. -/
def renderAbs (segs : List String) : String :=
  "/" ++ joinSlash segs

/-- `_normalize_resource_path`: convert backslashes to forward slashes and
normalize through `PurePosixPath(...).as_posix()`, which drops empty and `.`
components (so `./refs/doc.md` and `refs/doc.md` coincide) but keeps `..`. -/
def _normalize_resource_path (path : String) : String :=
  let p := replBackslash path
  let body := joinSlash (posixSegs p)
  if posixRoot p = "" then (if body = "" then "." else body)
  else posixRoot p ++ body

/-- The component-processing loop of CPython `posixpath.normpath`:
`..` cancels a previous component, is preserved at the front of a relative
path, and is dropped at the root of an absolute path. -/
def normpathComps (initialSlashes : Nat) (acc : List String) : List String → List String
  | [] => acc
  | comp :: rest =>
    if comp = "" || comp = "." then normpathComps initialSlashes acc rest
    else if comp ≠ ".." || (initialSlashes = 0 && acc.isEmpty)
        || (!acc.isEmpty && acc.getLastD "" = "..") then
      normpathComps initialSlashes (acc ++ [comp]) rest
    else if !acc.isEmpty then normpathComps initialSlashes acc.dropLast rest
    else normpathComps initialSlashes acc rest

/-- `os.path.normpath` for POSIX paths: purely lexical normalization that
collapses `.`/empty components and resolves `..` against preceding
components. -/
def normpath (path : String) : String :=
  if path = "" then "." else
  let initialSlashes : Nat :=
    if strPrefix "/" path then
      (if strPrefix "//" path && !strPrefix "///" path then 2 else 1)
    else 0
  let comps := normpathComps initialSlashes [] (splitChar '/' path)
  let out := String.mk (List.replicate initialSlashes '/') ++ joinSlash comps
  if out = "" then "." else out

/-- `Path(base) / child`: the child replaces the base when it is absolute. -/
def pathJoin (base child : String) : String :=
  if strPrefix "/" child then child else base ++ "/" ++ child

/-- The last component of a segment-list path (`PurePath.name`). -/
def lastSeg (p : List String) : String :=
  p.getLastD ""

/-- Index of the last occurrence of `.` in a character list, if any. -/
def rfindDot : List Char → Option Nat
  | [] => none
  | c :: cs =>
    match rfindDot cs with
    | some i => some (i + 1)
    | none => if c = '.' then some 0 else none

/-- `PurePath.suffix` of a file name: the extension from the last dot,
empty when the dot is leading or trailing. -/
def pySuffix (name : String) : String :=
  match rfindDot name.data with
  | some i =>
    if 0 < i && i < name.data.length - 1 then String.mk (name.data.drop i) else ""
  | none => ""

/-! ### Filesystem model

The filesystem is a finite association list from absolute paths (lists of
components) to nodes.  A node records what `os.lstat`/`os.stat` report:
a regular file with its text content, a directory, or a symlink whose
ultimate target is a regular file (with the target's content) or a
directory.  Listing an entry whose path passes through a symlinked
directory models the lexical view a recursive walk that follows symlinks
would produce.  `Path.is_file` / `Path.is_dir` / `read_text` follow
symlinks; `Path.is_symlink` does not.
-/

/-- A filesystem node, as reported by `stat`/`lstat`. -/
inductive FSNode where
  | file (content : String)
  | dir
  | symlinkFile (content : String)
  | symlinkDir
deriving DecidableEq

/-- A finite filesystem: absolute component paths mapped to nodes. -/
structure FS where
  nodes : List (List String × FSNode)

/-- Look up the node at a path. -/
def FS.find (fs : FS) (p : List String) : Option FSNode :=
  (fs.nodes.find? (fun e => e.1 = p)).map (fun e => e.2)

/-- `Path(p).is_file()`: follows symlinks. -/
def FS.isFile (fs : FS) (p : List String) : Bool :=
  match fs.find p with
  | some (.file _) => true
  | some (.symlinkFile _) => true
  | _ => false

/-- `Path(p).is_dir()`: follows symlinks. -/
def FS.isDir (fs : FS) (p : List String) : Bool :=
  match fs.find p with
  | some .dir => true
  | some .symlinkDir => true
  | _ => false

/-- `Path(p).is_symlink()`: does not follow the final component. -/
def FS.isSymlink (fs : FS) (p : List String) : Bool :=
  match fs.find p with
  | some (.symlinkFile _) => true
  | some .symlinkDir => true
  | _ => false

/-- Exceptions crossing the module's try/except boundaries: the constructor
name is what `type(exc).__name__` reports. -/
inductive PyExc where
  | valueError (msg : String)
  | osError (msg : String)
  | exc (typeName : String) (msg : String)
deriving DecidableEq

/-- `type(exc).__name__`. -/
def PyExc.typeName : PyExc → String
  | .valueError _ => "ValueError"
  | .osError _ => "OSError"
  | .exc n _ => n

/-- `Path(p).read_text()`: follows symlinks; raises `OSError` for missing
files and directories. -/
def FS.readText (fs : FS) (p : List String) : Except PyExc String :=
  match fs.find p with
  | some (.file c) => .ok c
  | some (.symlinkFile c) => .ok c
  | _ => .error (.osError "unreadable")

/-- Well-formedness: filesystem keys are distinct. -/
def FS.WF (fs : FS) : Prop :=
  (fs.nodes.map Prod.fst).Nodup

/-- Every listed path round-trips through the string path functions: its
rendered form is `normpath`-stable and parses back to its components.  This
holds for any filesystem whose component names are ordinary (non-empty, not
`.`/`..`, no slashes), and is decidable for concrete filesystems. -/
def FS.renderOK (fs : FS) : Bool :=
  fs.nodes.all (fun e =>
    decide (normpath (renderAbs e.1) = renderAbs e.1) &&
    decide (pathParts (renderAbs e.1) = "/" :: e.1) &&
    decide (strSegs (renderAbs e.1) = e.1))

/-! ### Data model (`_models.py`)

`AgentSkillResource` holds an optional static `content` and an optional
dynamic producer `function` (a zero-argument callable that may raise);
`AgentSkill` bundles metadata, the instructions body, resources, and the
on-disk directory path (`none` for code-defined skills).
-/

/-- `AgentSkillResource`: a named piece of supplementary content. -/
structure AgentSkillResource where
  name : String
  description : Option String := none
  content : Option String := none
  function : Option (Unit → Except PyExc String) := none

/-- `AgentSkill`: a skill definition with optional resources. -/
structure AgentSkill where
  name : String
  description : String
  content : String
  resources : List AgentSkillResource := []
  path : Option String := none

/-- Python truthiness of `skill.path` (`None` and `""` are falsy). -/
def AgentSkill.pathTruthy (s : AgentSkill) : Bool :=
  match s.path with
  | some p => p ≠ ""
  | none => false

/-! ### Constants and metadata validation -/

/-- `SKILL_FILE_NAME`. -/
def SKILL_FILE_NAME : String := "SKILL.md"

/-- `MAX_SEARCH_DEPTH`. -/
def MAX_SEARCH_DEPTH : Nat := 2

/-- `MAX_NAME_LENGTH`. -/
def MAX_NAME_LENGTH : Nat := 64

/-- `MAX_DESCRIPTION_LENGTH`. -/
def MAX_DESCRIPTION_LENGTH : Nat := 1024

/-- `DEFAULT_RESOURCE_EXTENSIONS`. -/
def DEFAULT_RESOURCE_EXTENSIONS : List String :=
  [".md", ".json", ".yaml", ".yml", ".csv", ".xml", ".txt"]

/-- `[a-z0-9]`. -/
def isNameChar (c : Char) : Bool :=
  ('a' ≤ c && c ≤ 'z') || ('0' ≤ c && c ≤ '9')

/-- Membership in the language of `^[a-z0-9]([a-z0-9-]*[a-z0-9])?$` read as
an anchored regular expression over the whole string: one allowed character,
or an allowed first and last character with hyphens also allowed between. -/
def validNameCore (s : String) : Bool :=
  match s.data with
  | [] => false
  | c :: cs =>
    isNameChar c &&
    (cs.isEmpty ||
      (cs.dropLast.all (fun d => isNameChar d || d = '-') && isNameChar (cs.getLastD c)))

/-- `VALID_NAME_RE.match(s)` with CPython `re` semantics: `$` also matches
just before a single trailing newline, so `"ab\n"` matches even though it is
outside the language of the pattern. -/
def pyNameMatch (s : String) : Bool :=
  validNameCore s ||
    (s.data.getLastD ' ' = '\n' && validNameCore (String.mk s.data.dropLast))

/-- `_validate_skill_metadata`: returns a diagnostic when the name or
description fails the naming rules, `none` when both are valid. -/
def _validate_skill_metadata (name description : Option String) (source : String) :
    Option String :=
  match name with
  | none => some ("Skill from '" ++ source ++ "' is missing a name.")
  | some n =>
    if isBlank n then some ("Skill from '" ++ source ++ "' is missing a name.")
    else if n.length > MAX_NAME_LENGTH || !pyNameMatch n then
      some ("Skill from '" ++ source ++ "' has an invalid name '" ++ n ++
        "': Must be 64 characters or fewer, using only lowercase letters, numbers, " ++
        "and hyphens, and must not start or end with a hyphen.")
    else match description with
      | none => some ("Skill '" ++ n ++ "' from '" ++ source ++ "' is missing a description.")
      | some d =>
        if isBlank d then
          some ("Skill '" ++ n ++ "' from '" ++ source ++ "' is missing a description.")
        else if d.length > MAX_DESCRIPTION_LENGTH then
          some ("Skill '" ++ n ++ "' from '" ++ source ++
            "' has an invalid description: Must be 1024 characters or fewer.")
        else none

/-! ### XML escaping (`html.escape` with `quote=True`) -/

/-- `html.escape`: replaces the five XML-special characters. -/
def xml_escape (s : String) : String :=
  String.join (s.data.map (fun c =>
    if c = '&' then "&amp;"
    else if c = '<' then "&lt;"
    else if c = '>' then "&gt;"
    else if c = Char.ofNat 34 then "&quot;"
    else if c = Char.ofNat 39 then "&#x27;"
    else String.mk [c]))

/-! ### Manifest parsing

`FRONTMATTER_RE` and `YAML_KV_RE` are embedded as line-structured parsers:
the frontmatter block is delimited by `---` fence lines (`---` followed only
by whitespace) with the opening fence on the very first line (after an
optional BOM), and each `key: value` line is parsed with optional
surrounding whitespace, a `\w+` key, and an optionally quoted value.
-/

/-- A `---` fence line: `---` followed only by whitespace (`^---\s*$`). -/
def isDashFence (line : String) : Bool :=
  strPrefix "---" line && pyStrip (String.mk (line.data.drop 3)) = ""

/-- `FRONTMATTER_RE.search(content)`, group 1 up to stripping: the lines
strictly between the opening fence (which must start the text, after an
optional UTF-8 BOM) and the first closing fence. -/
def extractFrontmatterBlock (content : String) : Option String :=
  let c :=
    if content.data.head? = some (Char.ofNat 0xFEFF) then String.mk (content.data.drop 1)
    else content
  match splitChar '\n' c with
  | [] => none
  | first :: rest =>
    if isDashFence first then
      match rest.findIdx? isDashFence with
      | some j => some (joinNL (rest.take j))
      | none => none
    else none

/-- `\w` (ASCII fragment). -/
def isWordChar (c : Char) : Bool :=
  ('a' ≤ c && c ≤ 'z') || ('A' ≤ c && c ≤ 'Z') || ('0' ≤ c && c ≤ '9') || c = '_'

/-- Is `c` a single or double quote? -/
def isQuoteChar (c : Char) : Bool :=
  c = Char.ofNat 34 || c = Char.ofNat 39

/-- `YAML_KV_RE` on one line: `^\s*(\w+)\s*:\s*(?:["'](.+?)["']|(.+?))\s*$`.
Returns the key and the value (quotes stripped when the trimmed value is
enclosed in quote characters). -/
def parseKVLine (line : String) : Option (String × String) :=
  let cs := line.data.dropWhile pyIsSpace
  let key := cs.takeWhile isWordChar
  let rest := (cs.dropWhile isWordChar).dropWhile pyIsSpace
  if key.isEmpty then none
  else
    match rest with
    | ':' :: rest2 =>
      let v := pyStripData rest2
      if v.isEmpty then none
      else if v.length ≥ 3 && isQuoteChar (v.headD ' ') && isQuoteChar (v.getLastD ' ') then
        some (String.mk key, String.mk (v.drop 1).dropLast)
      else
        some (String.mk key, String.mk v)
    | _ => none

/-- `_extract_frontmatter`: extract the fenced block, collect `name` and
`description` from its `key: value` lines (later assignments overwrite
earlier ones, keys compared lower-cased), and validate the metadata. -/
def _extract_frontmatter (content skill_file_path : String) : Option (String × String) :=
  match extractFrontmatterBlock content with
  | none => none
  | some block =>
    let kvs := (splitChar '\n' (pyStrip block)).filterMap parseKVLine
    let name := ((kvs.filter (fun kv => pyLower kv.1 = "name")).getLast?).map Prod.snd
    let description :=
      ((kvs.filter (fun kv => pyLower kv.1 = "description")).getLast?).map Prod.snd
    match _validate_skill_metadata name description skill_file_path with
    | some _ => none
    | none =>
      match name, description with
      | some n, some d => some (n, d)
      | _, _ => none

/-- `_read_and_parse_skill_file`: read `SKILL.md` in the directory and parse
its frontmatter; `none` when unreadable or invalid. -/
def _read_and_parse_skill_file (fs : FS) (skill_dir : List String) :
    Option (String × String × String) :=
  match fs.readText (skill_dir ++ [SKILL_FILE_NAME]) with
  | .error _ => none
  | .ok content =>
    match _extract_frontmatter content (renderAbs (skill_dir ++ [SKILL_FILE_NAME])) with
    | none => none
    | some (n, d) => some (n, d, content)

/-! ### Path security guards -/

/-- `_is_path_within_directory`: `Path(path).is_relative_to(directory)`,
which holds exactly when the directory's `parts` are a prefix of the path's
`parts` — true path containment, not string-prefix containment. -/
def _is_path_within_directory (path directory : String) : Bool :=
  (pathParts directory).isPrefixOf (pathParts path)

/-- The walk of `_has_symlink_in_path`: extend the current path by each
relative component in turn and test it with `is_symlink`. -/
def symlinkWalk (fs : FS) (current : List String) : List String → Bool
  | [] => false
  | p :: ps => fs.isSymlink (current ++ [p]) || symlinkWalk fs (current ++ [p]) ps

/-- `_has_symlink_in_path`: detect symlinks in the portion of `path` below
`directory`; raises `ValueError` when `path` is not relative to
`directory`. -/
def _has_symlink_in_path (fs : FS) (path directory : String) : Except PyExc Bool :=
  if (pathParts directory).isPrefixOf (pathParts path) then
    .ok (symlinkWalk fs (strSegs directory) ((pathParts path).drop (pathParts directory).length))
  else
    .error (.valueError ("path '" ++ path ++ "' does not start with directory '" ++
      directory ++ "'"))

/-! ### Resource discovery -/

/-- `Path.iterdir` restricted to subdirectories (`entry.is_dir()`): the
filesystem entries exactly one component below `d`, in listing order. -/
def FS.childDirs (fs : FS) (d : List String) : List (List String) :=
  fs.nodes.filterMap (fun e =>
    if e.1.length = d.length + 1 ∧ e.1.dropLast = d ∧ fs.isDir e.1 = true then some e.1
    else none)

/-- The recursive helper `_search` of `_discover_skill_directories`, with
the remaining depth budget made explicit: a directory is recorded when it
directly contains `SKILL.md`, and its subdirectories are searched while the
budget is positive (the source stops recursing once
`current_depth >= MAX_SEARCH_DEPTH`). -/
def searchSkillDirs (fs : FS) : Nat → List String → List (List String)
  | fuel, dir =>
    let here := if fs.isFile (dir ++ [SKILL_FILE_NAME]) then [dir] else []
    match fuel with
    | 0 => here
    | fuel' + 1 => here ++ (fs.childDirs dir).flatMap (searchSkillDirs fs fuel')

/-- `_discover_skill_directories`: search each root (skipping blank paths
and non-directories) up to `MAX_SEARCH_DEPTH`. -/
def _discover_skill_directories (fs : FS) (skill_paths : List String) :
    List (List String) :=
  skill_paths.flatMap (fun root =>
    if isBlank root || !fs.isDir (strSegs root) then []
    else searchSkillDirs fs MAX_SEARCH_DEPTH (strSegs root))

/-- `_discover_resource_files`: walk the skill directory recursively
(`rglob("*")` is modelled by the filesystem entries strictly below it, in
listing order), keep regular-file entries whose extension is allowed,
excluding `SKILL.md` itself (case-insensitive), and drop any candidate that
fails the containment or symlink checks; survivors are returned as
normalized relative identifiers. -/
def _discover_resource_files (fs : FS) (skill_dir : List String)
    (extensions : List String) : List String :=
  let root_directory_path := renderAbs skill_dir
  let normalized_extensions := extensions.map pyLower
  fs.nodes.filterMap (fun e =>
    if !decide (skill_dir.isPrefixOf e.1 ∧ e.1 ≠ skill_dir) then none
    else if !fs.isFile e.1 then none
    else if pyUpper (lastSeg e.1) = pyUpper SKILL_FILE_NAME then none
    else if !normalized_extensions.contains (pyLower (pySuffix (lastSeg e.1))) then none
    else
      let resource_full_path := normpath (renderAbs e.1)
      if !_is_path_within_directory resource_full_path root_directory_path then none
      else
        match _has_symlink_in_path fs resource_full_path root_directory_path with
        | .ok true => none
        | .error _ => none
        | .ok false =>
          some (_normalize_resource_path (joinSlash (e.1.drop skill_dir.length))))

/-! ### Reading file-based resources -/

/-- `_read_file_skill_resource`: normalize the requested relative path,
resolve it against the skill directory, and read it only when the resolved
path stays within the directory, exists as a file, and traverses no symlink
below the directory; every failure raises `ValueError`/`OSError`. -/
def _read_file_skill_resource (fs : FS) (skill : AgentSkill) (resource_name : String) :
    Except PyExc String :=
  let rn := _normalize_resource_path resource_name
  if !skill.pathTruthy then
    .error (.valueError ("Skill '" ++ skill.name ++
      "' has no path set; cannot read file-based resources."))
  else
    let sp := skill.path.getD ""
    let resource_full_path := normpath (pathJoin sp rn)
    let root_directory_path := normpath sp
    if !_is_path_within_directory resource_full_path root_directory_path then
      .error (.valueError ("Resource file '" ++ rn ++
        "' references a path outside the skill directory."))
    else if !fs.isFile (strSegs resource_full_path) then
      .error (.valueError ("Resource file '" ++ rn ++ "' not found in skill '" ++
        skill.name ++ "'."))
    else
      match _has_symlink_in_path fs resource_full_path root_directory_path with
      | .ok true =>
        .error (.valueError ("Resource file '" ++ rn ++ "' in skill '" ++ skill.name ++
          "' has a symlink in its path; symlinks are not allowed."))
      | .error e => .error e
      | .ok false => fs.readText (strSegs resource_full_path)

/-! ### Registry building -/

/-- The registry is a name-keyed insertion-ordered dictionary, modelled as
the list of its values; `lookupSkill` is `dict.get` (keys always equal the
stored skill's `name`). -/
def lookupSkill (skills : List AgentSkill) (name : String) : Option AgentSkill :=
  skills.find? (fun s => s.name = name)

/-- `name in skills` for the registry dictionary. -/
def containsName (skills : List AgentSkill) (name : String) : Bool :=
  (lookupSkill skills name).isSome

/-- The per-directory body of `_discover_file_skills`: parse the manifest
and build the `AgentSkill` with its discovered file-backed resources, each
wrapped in a lazy closure over `_read_file_skill_resource`. -/
def buildFileSkill (fs : FS) (extensions : List String) (dir : List String) :
    Option AgentSkill :=
  (_read_and_parse_skill_file fs dir).map (fun t =>
    let base : AgentSkill :=
      { name := t.1, description := t.2.1, content := t.2.2,
        resources := [], path := some (renderAbs dir) }
    { base with
      resources := (_discover_resource_files fs dir extensions).map (fun rn =>
        { name := rn, description := none, content := none,
          function := some (fun _ => _read_file_skill_resource fs base rn) }) })

/-- `_discover_file_skills`: load every discovered directory in order,
skipping unparsable manifests and skills whose name is already registered
(the first discovered skill with a name wins). -/
def _discover_file_skills (fs : FS) (skill_paths : Option (List String))
    (resource_extensions : List String) : List AgentSkill :=
  match skill_paths with
  | none => []
  | some paths =>
    (_discover_skill_directories fs paths).foldl (fun acc dir =>
      match buildFileSkill fs resource_extensions dir with
      | none => acc
      | some sk => if containsName acc sk.name then acc else acc ++ [sk]) []

/-- `_load_skills`: file-based skills first, then code-defined skills, each
validated and dropped when its name collides with an existing entry. -/
def _load_skills (fs : FS) (skill_paths : Option (List String))
    (skills : List AgentSkill) (resource_extensions : List String) : List AgentSkill :=
  let result := _discover_file_skills fs skill_paths resource_extensions
  skills.foldl (fun acc code_skill =>
    if (_validate_skill_metadata (some code_skill.name) (some code_skill.description)
        "code skill").isSome then acc
    else if containsName acc code_skill.name then acc
    else acc ++ [code_skill]) result

/-! ### The `load_skill` / `read_skill_resource` operations -/

/-- `_create_resource_element`: a self-closing `<resource .../>` element
with escaped name and optional escaped description. -/
def _create_resource_element (resource : AgentSkillResource) : String :=
  let attrs := "name=\"" ++ xml_escape resource.name ++ "\""
  let attrs :=
    match resource.description with
    | some d => if d ≠ "" then attrs ++ " description=\"" ++ xml_escape d ++ "\"" else attrs
    | none => attrs
  "  <resource " ++ attrs ++ "/>"

/-- `_load_skill`: raw manifest text for file-based skills; an XML-wrapped
block (with a resource listing when resources exist) for code-defined
skills; `Error:` strings for blank or unknown names. -/
def _load_skill (skills : List AgentSkill) (skill_name : String) : String :=
  if isBlank skill_name then "Error: Skill name cannot be empty."
  else
    match lookupSkill skills skill_name with
    | none => "Error: Skill '" ++ skill_name ++ "' not found."
    | some skill =>
      if skill.pathTruthy then skill.content
      else
        let content :=
          "<name>" ++ xml_escape skill.name ++ "</name>\n" ++
          "<description>" ++ xml_escape skill.description ++ "</description>\n" ++
          "\n<instructions>\n" ++ skill.content ++ "\n</instructions>"
        if skill.resources.isEmpty then content
        else content ++ "\n\n<resources>\n" ++
          joinNL (skill.resources.map _create_resource_element) ++ "\n</resources>"

/-- `_read_skill_resource`: resolve the resource by case-insensitive name
among the skill's resources, then return static content, or invoke the
producer converting any raised exception into an `Error (...)` string. -/
def _read_skill_resource (skills : List AgentSkill) (skill_name resource_name : String) :
    String :=
  if isBlank skill_name then "Error: Skill name cannot be empty."
  else if isBlank resource_name then "Error: Resource name cannot be empty."
  else
    match lookupSkill skills skill_name with
    | none => "Error: Skill '" ++ skill_name ++ "' not found."
    | some skill =>
      match skill.resources.find? (fun r => pyLower r.name = pyLower resource_name) with
      | none =>
        "Error: Resource '" ++ resource_name ++ "' not found in skill '" ++
          skill_name ++ "'."
      | some resource =>
        match resource.content with
        | some c => c
        | none =>
          match resource.function with
          | some f =>
            match f () with
            | .ok r => r
            | .error exc =>
              "Error (" ++ exc.typeName ++ "): Failed to read resource '" ++
                resource_name ++ "' from skill '" ++ skill_name ++ "'."
          | none =>
            "Error: Resource '" ++ resource.name ++ "' has no content or function."

/-! ### Instruction rendering -/

/-- Python string comparison: lexicographic on Unicode code points
(`≤` variant). -/
def charsLe : List Char → List Char → Bool
  | [], _ => true
  | _ :: _, [] => false
  | a :: as', b :: bs =>
    a.toNat < b.toNat || (a.toNat = b.toNat && charsLe as' bs)

/-- `a.name ≤ b.name` under Python string comparison. -/
def nameLe (a b : AgentSkill) : Bool :=
  charsLe a.name.data b.name.data

/-- Insert a skill into a name-sorted list, before the first entry whose
name is not smaller. -/
def insertByName (x : AgentSkill) : List AgentSkill → List AgentSkill
  | [] => [x]
  | y :: ys => if nameLe x y then x :: y :: ys else y :: insertByName x ys

/-- `sorted(skills.values(), key=lambda s: s.name)`: a stable ascending
sort by name (extensionally, any stable sort — here insertion sort). -/
def sortByName : List AgentSkill → List AgentSkill
  | [] => []
  | x :: xs => insertByName x (sortByName xs)

/-- The four advertisement lines appended per skill by
`_create_instructions`. -/
def skillEntryLines (s : AgentSkill) : List String :=
  ["  <skill>",
   "    <name>" ++ xml_escape s.name ++ "</name>",
   "    <description>" ++ xml_escape s.description ++ "</description>",
   "  </skill>"]

/-- `str.format` field substitution, fuelled for structural recursion (the
fuel is always sufficient when it exceeds the template length): `{{`/`}}`
are brace escapes, `{skills}` substitutes the value, any other field or a
malformed brace raises (`KeyError`/`IndexError`/`ValueError`, all folded
into `.error`).  Format specs (`{skills:...}`) are not modelled. -/
def formatGo (v : String) : Nat → List Char → Except String String
  | 0, _ => .error "out of fuel"
  | _ + 1, [] => .ok ""
  | fuel + 1, c :: rest =>
    if c = Char.ofNat 123 then
      match rest with
      | [] => .error "ValueError: Single open brace encountered"
      | d :: rest2 =>
        if d = Char.ofNat 123 then
          (formatGo v fuel rest2).map (fun s => "\x7b" ++ s)
        else
          let field := (d :: rest2).takeWhile (fun x => x ≠ Char.ofNat 125)
          match (d :: rest2).dropWhile (fun x => x ≠ Char.ofNat 125) with
          | [] => .error "ValueError: expected closing brace"
          | _ :: rest3 =>
            if String.mk field = "skills" then
              (formatGo v fuel rest3).map (fun s => v ++ s)
            else .error ("KeyError: " ++ String.mk field)
    else if c = Char.ofNat 125 then
      match rest with
      | d :: rest2 =>
        if d = Char.ofNat 125 then (formatGo v fuel rest2).map (fun s => "\x7d" ++ s)
        else .error "ValueError: Single closing brace encountered"
      | [] => .error "ValueError: Single closing brace encountered"
    else
      (formatGo v fuel rest).map (fun s => String.mk [c] ++ s)

/-- `template.format(skills=v)`. -/
def formatString (template v : String) : Except String String :=
  formatGo v (template.data.length + 1) template.data

/-- `DEFAULT_SKILLS_INSTRUCTION_PROMPT`. -/
def DEFAULT_SKILLS_INSTRUCTION_PROMPT : String :=
  "You have access to skills containing domain-specific knowledge and capabilities.\n" ++
  "Each skill provides specialized instructions, reference documents, and assets for specific tasks.\n" ++
  "\n<available_skills>\n{skills}\n</available_skills>\n\n" ++
  "When a task aligns with a skill's domain, follow these steps in exact order:\n" ++
  "1. Use `load_skill` to retrieve the skill's instructions.\n" ++
  "2. Follow the provided guidance.\n" ++
  "3. Use `read_skill_resource` to read any referenced resources, using the name exactly as listed\n" ++
  "   (e.g. `\"style-guide\"` not `\"style-guide.md\"`, `\"references/FAQ.md\"` not `\"FAQ.md\"`).\n" ++
  "\nOnly load what is needed, when it is needed."

/-- `_create_instructions`: validate a custom template with a probe
substitution, return `none` (absent) for an empty registry, otherwise
substitute the sorted, escaped skill list into the template;
`.error` models a raised `ValueError`. -/
def _create_instructions (prompt_template : Option String)
    (skills : List AgentSkill) : Except String (Option String) :=
  let templateE : Except String String :=
    match prompt_template with
    | none => .ok DEFAULT_SKILLS_INSTRUCTION_PROMPT
    | some t =>
      match formatString t "__PROBE__" with
      | .error _ =>
        .error ("ValueError: The provided instruction_template is not a valid format " ++
          "string. It must contain a 'skills' placeholder and escape any literal " ++
          "braces by doubling them.")
      | .ok r =>
        if !containsSub r "__PROBE__" then
          .error "ValueError: The provided instruction_template must contain a 'skills' placeholder."
        else .ok t
  match templateE with
  | .error e => .error e
  | .ok template =>
    if skills.isEmpty then .ok none
    else
      match formatString template (joinNL ((sortByName skills).flatMap skillEntryLines)) with
      | .ok out => .ok (some out)
      | .error e => .error e

/-! ### Concrete scenarios used by several claims -/

/-- A well-formed manifest: frontmatter with `name: my-skill`,
`description: A test skill.`, body `Body.`. -/
def manifestA : String :=
  "---\nname: my-skill\ndescription: A test skill.\n---\nBody."

/-- A filesystem with one skill directory `/skills/my-skill` holding the
manifest and one plain resource file `refs/FAQ.md`. -/
def fsA : FS := ⟨[
  (["skills"], .dir),
  (["skills", "my-skill"], .dir),
  (["skills", "my-skill", "SKILL.md"], .file manifestA),
  (["skills", "my-skill", "refs"], .dir),
  (["skills", "my-skill", "refs", "FAQ.md"], .file "FAQ content")
]⟩

/-- The registry built from `fsA` with no code-defined skills. -/
def regA : List AgentSkill :=
  _load_skills fsA (some ["/skills"]) [] DEFAULT_RESOURCE_EXTENSIONS

/-! ### C8: manifest round trip -/

/-- **C8.** Round trip for file-based skills: the manifest written with name
`my-skill`, description `A test skill.` and body `Body.` parses to exactly
that name and description, and `load_skill("my-skill")` on the file-based
registration returns the full original manifest text unchanged (including
the metadata block).  The embedded read is a pure function of the
filesystem, so calling it twice returns identical text. -/
theorem claim_C8_roundtrip :
    _read_and_parse_skill_file fsA ["skills", "my-skill"] =
      some ("my-skill", "A test skill.", manifestA) ∧
    _load_skill regA "my-skill" = manifestA ∧
    _load_skill regA "my-skill" = _load_skill regA "my-skill" :=
  ⟨by decide, by rfl, rfl⟩

/-! ### C10: exact skill-name lookup, case-insensitive resource lookup -/

/-- **C10.** Skill-name lookup in `load_skill` and `read_skill_resource` is
an exact string match: whenever the (non-blank) requested name is not a
registry key — in particular a case-variant or whitespace-variant of a
registered name — both operations return the skill-not-found `Error:`
string; by contrast a resource whose stored name matches the requested name
case-insensitively is served. -/
theorem claim_C10_exact_name_lookup :
    (∀ (skills : List AgentSkill) (sname : String),
      isBlank sname = false → lookupSkill skills sname = none →
      _load_skill skills sname = "Error: Skill '" ++ sname ++ "' not found." ∧
      ∀ rname : String, isBlank rname = false →
        _read_skill_resource skills sname rname =
          "Error: Skill '" ++ sname ++ "' not found.") ∧
    (∀ (skills : List AgentSkill) (sname rname : String)
      (skill : AgentSkill) (r : AgentSkillResource) (c : String),
      isBlank sname = false → isBlank rname = false →
      lookupSkill skills sname = some skill →
      skill.resources.find? (fun x => pyLower x.name = pyLower rname) = some r →
      r.content = some c →
      _read_skill_resource skills sname rname = c) := by
  constructor
  · intro skills sname hb hn
    constructor
    · simp [_load_skill, hb, hn]
    · intro rname hrb
      simp [_read_skill_resource, hb, hrb, hn]
  · intro skills sname rname skill r c hb hrb hs hr hc
    simp [_read_skill_resource, hb, hrb, hs, hr, hc]

/-- Registry for the C10 witness: one skill `my-skill` with a static
resource named `MyRef`. -/
def regC10 : List AgentSkill :=
  [{ name := "my-skill", description := "A skill.", content := "Body",
     resources := [{ name := "MyRef", content := some "content" }] }]

/-- Witness for C10: `My-Skill` and `my-skill ` (trailing space) are not
found, while resource `myref` matches `MyRef` case-insensitively. -/
theorem claim_C10_exact_name_lookup_witness :
    _load_skill regC10 "My-Skill" = "Error: Skill 'My-Skill' not found." ∧
    _read_skill_resource regC10 "my-skill " "x" =
      "Error: Skill 'my-skill ' not found." ∧
    _read_skill_resource regC10 "my-skill" "myref" = "content" :=
  ⟨(claim_C10_exact_name_lookup.1 regC10 "My-Skill" (by decide) (by rfl)).1,
   (claim_C10_exact_name_lookup.1 regC10 "my-skill " (by decide) (by rfl)).2 "x" (by decide),
   claim_C10_exact_name_lookup.2 regC10 "my-skill" "myref" _ _ "content"
     (by decide) (by decide) (by rfl) (by rfl) (by rfl)⟩

/-! ### C3: true path containment, not string-prefix matching -/

/-- **C3.** The containment check is true path containment: whenever the
resolved resource path descends into a *sibling* directory of the skill
root — even one whose name has the root's name as a proper string prefix
(such as `skill-a` vs `skill-a-evil`) — `_read_file_skill_resource` rejects
the request as outside the skill directory. -/
theorem claim_C3_no_prefix_match (fs : FS) (skill : AgentSkill) (sp rn : String)
    (base : List String) (rootName evil : String) (rest : List String)
    (hpath : skill.path = some sp) (hsp : sp ≠ "")
    (hroot : pathParts (normpath sp) = base ++ [rootName])
    (hfull : pathParts (normpath (pathJoin sp (_normalize_resource_path rn))) =
      base ++ evil :: rest)
    (hpre : strPrefix rootName evil = true) (hne : rootName ≠ evil) :
    _read_file_skill_resource fs skill rn =
      .error (.valueError ("Resource file '" ++ _normalize_resource_path rn ++
        "' references a path outside the skill directory.")) := by
  have htr : skill.pathTruthy = true := by
    simp [AgentSkill.pathTruthy, hpath, hsp]
  have hwithin : _is_path_within_directory
      (normpath (pathJoin sp (_normalize_resource_path rn))) (normpath sp) = false := by
    unfold _is_path_within_directory
    rw [hroot, hfull]
    rw [Bool.eq_false_iff]
    intro hcon
    rw [List.isPrefixOf_iff_prefix, List.prefix_append_right_inj] at hcon
    exact hne (List.cons_prefix_cons.mp hcon).1
  unfold _read_file_skill_resource
  rw [htr]
  simp only [Bool.not_true, Bool.false_eq_true, if_false, hpath, Option.getD_some]
  rw [hwithin]
  simp

/-- Witness for C3: against a skill rooted at `/tmp/skill-a`, the request
`../skill-a-evil/secret.md` resolves to `/tmp/skill-a-evil/secret.md` and is
rejected, although `skill-a` is a string prefix of `skill-a-evil`. -/
theorem claim_C3_no_prefix_match_witness :
    _read_file_skill_resource ⟨[]⟩
      { name := "test", description := "Test skill", content := "Body",
        path := some "/tmp/skill-a" }
      "../skill-a-evil/secret.md" =
      .error (.valueError ("Resource file '../skill-a-evil/secret.md' references " ++
        "a path outside the skill directory.")) :=
  claim_C3_no_prefix_match ⟨[]⟩ _ "/tmp/skill-a" "../skill-a-evil/secret.md"
    ["/", "tmp"] "skill-a" "skill-a-evil" ["secret.md"]
    rfl (by decide) (by decide) (by decide) (by decide) (by decide)

/-! ### C5: skill-name and description validation -/

/-- Registry input for C5: a code-defined skill whose name carries a
trailing newline. -/
def badNameSkill : AgentSkill :=
  { name := "ab\n", description := "A skill.", content := "Body" }

/-- **C5.** The name invariant fails on the code: `re.match` lets `$` match
just before a trailing newline, so the code-defined skill named `"ab\n"` is
accepted into the registry even though `"ab\n"` is outside the language of
`^[a-z0-9]([a-z0-9-]*[a-z0-9])?$` (here `validNameCore`, the anchored
reading of the pattern that the claim asserts for every accepted name). -/
theorem claim_C5_name_invariant_violated :
    ((_load_skills ⟨[]⟩ none [badNameSkill] DEFAULT_RESOURCE_EXTENSIONS).map
      (fun s => s.name)) = ["ab\n"] ∧
    validNameCore "ab\n" = false ∧
    pyNameMatch "ab\n" = true :=
  ⟨by rfl, by decide, by decide⟩

/-! ### C4: exception conversion in `read_skill_resource` -/

/-- Registry for C4: a skill with a dynamic producer that raises
`RuntimeError`. -/
def regC4 : List AgentSkill :=
  [{ name := "my-skill", description := "A skill.", content := "Body",
     resources := [{ name := "exploding_resource",
                     function := some (fun _ => .error (.exc "RuntimeError" "boom")) }] }]

/-- Counterexample to **C4** as stated: the string returned for a raising
producer starts with `Error (RuntimeError):`, not with the literal prefix
`Error:` the claim asserts. -/
theorem claim_C4_counterexample :
    _read_skill_resource regC4 "my-skill" "exploding_resource" =
      "Error (RuntimeError): Failed to read resource 'exploding_resource' " ++
        "from skill 'my-skill'." ∧
    strPrefix "Error:"
      (_read_skill_resource regC4 "my-skill" "exploding_resource") = false :=
  ⟨by rfl, by rfl⟩

/-- **C4 (amended).** Any exception raised while invoking a dynamic
producer during `read_skill_resource` is caught and converted to a returned
string prefixed `Error (<exception type name>):` naming the underlying
failure kind; the operation always returns a string, so the exception never
propagates to the caller. -/
theorem claim_C4_exception_conversion
    (skills : List AgentSkill) (sname rname : String) (skill : AgentSkill)
    (r : AgentSkillResource) (f : Unit → Except PyExc String) (e : PyExc)
    (hb : isBlank sname = false) (hrb : isBlank rname = false)
    (hs : lookupSkill skills sname = some skill)
    (hr : skill.resources.find? (fun x => pyLower x.name = pyLower rname) = some r)
    (hc : r.content = none) (hf : r.function = some f)
    (he : f () = .error e) :
    _read_skill_resource skills sname rname =
      "Error (" ++ e.typeName ++ "): Failed to read resource '" ++ rname ++
        "' from skill '" ++ sname ++ "'." := by
  simp [_read_skill_resource, hb, hrb, hs, hr, hc, hf, he]

/-- Witness for the amended C4 at the raising producer of `regC4`. -/
theorem claim_C4_exception_conversion_witness :
    _read_skill_resource regC4 "my-skill" "exploding_resource" =
      "Error (" ++ PyExc.typeName (.exc "RuntimeError" "boom") ++
        "): Failed to read resource 'exploding_resource' from skill 'my-skill'." :=
  claim_C4_exception_conversion regC4 "my-skill" "exploding_resource" _ _
    (fun _ => .error (.exc "RuntimeError" "boom")) (.exc "RuntimeError" "boom")
    (by decide) (by decide) (by rfl) (by rfl) (by rfl) (by rfl) (by rfl)

/-! ### C1: `./`-prefixed resource identifiers -/

/-- If `//` begins a string then so does `/`. -/
theorem strPrefix_slash_of_dslash {p : String} (h : strPrefix "//" p = true) :
    strPrefix "/" p = true := by
  unfold strPrefix at h ⊢
  rw [List.isPrefixOf_iff_prefix] at h ⊢
  exact List.IsPrefix.trans ⟨['/'], rfl⟩ h

/-- A string that does not start with `/` has no POSIX root. -/
theorem posixRoot_of_not_slash {p : String} (h : strPrefix "/" p = false) :
    posixRoot p = "" := by
  have h2 : strPrefix "//" p = false := by
    cases hc : strPrefix "//" p
    · rfl
    · rw [strPrefix_slash_of_dslash hc] at h
      cases h
  unfold posixRoot
  rw [h, h2]
  simp

/-- `./name` is never blank. -/
theorem isBlank_dotSlash (p : String) : isBlank ("./" ++ p) = false := by
  unfold isBlank
  rw [decide_eq_false_iff_not]
  intro h
  have hd : pyStripData (("./" ++ p).data) = [] := by
    have h2 := congrArg String.data h
    simpa [pyStrip] using h2
  unfold pyStripData at hd
  rw [List.reverse_eq_nil_iff, List.dropWhile_eq_nil_iff] at hd
  have hdrop : List.dropWhile pyIsSpace (("./" ++ p).data) = '.' :: '/' :: p.data := rfl
  have hdot : ('.' : Char) ∈ (List.dropWhile pyIsSpace (("./" ++ p).data)).reverse := by
    rw [hdrop]
    simp
  have hsp := hd '.' hdot
  exact absurd hsp (by decide)

/-- Path normalization equates the `./`-prefixed and plain forms of any
relative identifier (the backslash-converted form must not begin with
`/`, which holds for every relative identifier). -/
theorem normalize_dotSlash (p : String)
    (h : strPrefix "/" (replBackslash p) = false) :
    _normalize_resource_path ("./" ++ p) = _normalize_resource_path p := by
  unfold _normalize_resource_path
  have hrepl : replBackslash ("./" ++ p) = "./" ++ replBackslash p := rfl
  rw [hrepl]
  have hroot1 : posixRoot ("./" ++ replBackslash p) = "" :=
    posixRoot_of_not_slash rfl
  have hroot2 : posixRoot (replBackslash p) = "" := posixRoot_of_not_slash h
  have hsegs : posixSegs ("./" ++ replBackslash p) = posixSegs (replBackslash p) := rfl
  simp only [hroot1, hroot2, hsegs]

/-- Counterexample to **C1** as stated: on the file-based skill of `fsA`
with discovered resource identifier `refs/FAQ.md`, the plain form returns
the file content but the `./`-prefixed form returns the resource-not-found
error, because `read_skill_resource` matches the registered identifiers
without normalizing its argument. -/
theorem claim_C1_counterexample :
    _read_skill_resource regA "my-skill" "refs/FAQ.md" = "FAQ content" ∧
    _read_skill_resource regA "my-skill" "./refs/FAQ.md" =
      "Error: Resource './refs/FAQ.md' not found in skill 'my-skill'." ∧
    _read_skill_resource regA "my-skill" "./refs/FAQ.md" ≠
      _read_skill_resource regA "my-skill" "refs/FAQ.md" :=
  ⟨by rfl, by rfl, by decide⟩

/-- **C1 (amended).** `./p` and `p` denote the same resource identifier for
path normalization and for the file-reading helper: `_normalize_resource_path`
maps both to the same string, and `_read_file_skill_resource` returns the
same value on both.  At the `read_skill_resource` tool level, however, the
resource lookup compares the registered identifiers (case-insensitively,
without normalizing), so when no registered name matches `./p` the call
returns the resource-not-found `Error:` string even when `p` itself is
registered. -/
theorem claim_C1_dot_slash_normalization :
    (∀ p : String, strPrefix "/" (replBackslash p) = false →
      _normalize_resource_path ("./" ++ p) = _normalize_resource_path p) ∧
    (∀ (fs : FS) (skill : AgentSkill) (p : String),
      strPrefix "/" (replBackslash p) = false →
      _read_file_skill_resource fs skill ("./" ++ p) =
        _read_file_skill_resource fs skill p) ∧
    (∀ (skills : List AgentSkill) (sname p : String) (skill : AgentSkill),
      lookupSkill skills sname = some skill → isBlank sname = false →
      skill.resources.find?
        (fun r => pyLower r.name = pyLower ("./" ++ p)) = none →
      _read_skill_resource skills sname ("./" ++ p) =
        "Error: Resource '" ++ ("./" ++ p) ++ "' not found in skill '" ++
          sname ++ "'.") := by
  refine ⟨fun p h => normalize_dotSlash p h, fun fs skill p h => ?_, ?_⟩
  · unfold _read_file_skill_resource
    rw [normalize_dotSlash p h]
  · intro skills sname p skill hs hb hfind
    simp [_read_skill_resource, hb, isBlank_dotSlash, hs, hfind]

/-- Witness for the amended C1 on the `fsA` scenario. -/
theorem claim_C1_dot_slash_normalization_witness :
    _normalize_resource_path ("./" ++ "refs/FAQ.md") =
      _normalize_resource_path "refs/FAQ.md" ∧
    _read_file_skill_resource fsA
      { name := "my-skill", description := "A test skill.", content := manifestA,
        path := some "/skills/my-skill" } ("./" ++ "refs/FAQ.md") =
      _read_file_skill_resource fsA
        { name := "my-skill", description := "A test skill.", content := manifestA,
          path := some "/skills/my-skill" } "refs/FAQ.md" ∧
    _read_skill_resource regA "my-skill" ("./" ++ "refs/FAQ.md") =
      "Error: Resource '" ++ ("./" ++ "refs/FAQ.md") ++ "' not found in skill '" ++
        "my-skill" ++ "'." :=
  ⟨claim_C1_dot_slash_normalization.1 "refs/FAQ.md" (by rfl),
   claim_C1_dot_slash_normalization.2.1 fsA _ "refs/FAQ.md" (by rfl),
   claim_C1_dot_slash_normalization.2.2 regA "my-skill" "refs/FAQ.md" _
     (by rfl) (by decide) (by rfl)⟩

/-! ### C2: symlink exclusion and rejection -/

/-- The symlink walk finds no symlink exactly when no proper-or-full prefix
extension of the base by the relative components is a symlink. -/
theorem symlinkWalk_false_iff (fs : FS) (rel : List String) : ∀ base : List String,
    symlinkWalk fs base rel = false ↔
      ∀ k, k < rel.length → fs.isSymlink (base ++ rel.take (k + 1)) = false := by
  induction rel with
  | nil =>
    intro base
    simp [symlinkWalk]
  | cons p ps ih =>
    intro base
    rw [symlinkWalk, Bool.or_eq_false_iff]
    constructor
    · rintro ⟨h1, h2⟩ k hk
      cases k with
      | zero => simpa using h1
      | succ k' =>
        have hk' : k' < ps.length := by
          simp only [List.length_cons] at hk
          omega
        have h3 := (ih (base ++ [p])).mp h2 k' hk'
        simpa [List.append_assoc] using h3
    · intro h
      refine ⟨?_, (ih (base ++ [p])).mpr ?_⟩
      · simpa using h 0 (by simp)
      · intro k hk
        have h3 := h (k + 1) (by simp only [List.length_cons]; omega)
        simpa [List.append_assoc] using h3

/-- With distinct keys, a listed entry is what association lookup returns. -/
theorem find_entry_of_mem : ∀ {l : List (List String × FSNode)},
    (l.map Prod.fst).Nodup → ∀ {p : List String} {n : FSNode}, (p, n) ∈ l →
    (l.find? (fun e => e.1 = p)).map (fun e => e.2) = some n := by
  intro l
  induction l with
  | nil => intro _ p n h; cases h
  | cons e es ih =>
    intro hwf p n h
    simp only [List.map_cons, List.nodup_cons] at hwf
    rcases List.mem_cons.mp h with he | he
    · subst he
      simp [List.find?]
    · have hne : e.1 ≠ p := by
        intro hcon
        exact hwf.1 (hcon ▸ List.mem_map_of_mem Prod.fst he)
      rw [List.find?_cons_of_neg _ (by simpa using hne)]
      exact ih hwf.2 he

/-- With distinct keys, a listed entry is what `FS.find` returns. -/
theorem FS.find_of_mem (fs : FS) (hwf : fs.WF) {p : List String} {n : FSNode}
    (h : (p, n) ∈ fs.nodes) : fs.find p = some n :=
  find_entry_of_mem hwf h

/-- Containment holds whenever the parsed parts literally extend the
root's parts. -/
theorem within_of_parts {full root : String} {rootSegs rel : List String}
    (hroot : pathParts root = "/" :: rootSegs)
    (hfull : pathParts full = "/" :: (rootSegs ++ rel)) :
    _is_path_within_directory full root = true := by
  unfold _is_path_within_directory
  rw [hroot, hfull, List.isPrefixOf_iff_prefix]
  exact List.cons_prefix_cons.mpr ⟨rfl, ⟨rel, rfl⟩⟩

/-- Under the same parse facts, `_has_symlink_in_path` runs the walk from
the root over exactly the relative components. -/
theorem has_symlink_eq_walk (fs : FS) {full root : String} {rootSegs rel : List String}
    (hroot : pathParts root = "/" :: rootSegs)
    (hrootsegs : strSegs root = rootSegs)
    (hfull : pathParts full = "/" :: (rootSegs ++ rel)) :
    _has_symlink_in_path fs full root = .ok (symlinkWalk fs rootSegs rel) := by
  unfold _has_symlink_in_path
  rw [if_pos]
  · rw [hroot, hrootsegs, hfull]
    simp only [List.length_cons, List.drop_succ_cons, List.drop_left]
  · rw [hroot, hfull, List.isPrefixOf_iff_prefix]
    exact List.cons_prefix_cons.mpr ⟨rfl, ⟨rel, rfl⟩⟩

/-- Read-time rejection: when the resolved resource path extends the skill
root by components one of whose prefixes is a symlink, the read raises. -/
theorem read_rejects_symlink (fs : FS) (skill : AgentSkill) (sp rn : String)
    (rootSegs rel : List String) (k : Nat)
    (hpath : skill.path = some sp) (hsp : sp ≠ "")
    (hrootparts : pathParts (normpath sp) = "/" :: rootSegs)
    (hrootsegs : strSegs (normpath sp) = rootSegs)
    (hfullparts : pathParts (normpath (pathJoin sp (_normalize_resource_path rn))) =
      "/" :: (rootSegs ++ rel))
    (hk : k < rel.length)
    (hsym : fs.isSymlink (rootSegs ++ rel.take (k + 1)) = true) :
    ∃ e, _read_file_skill_resource fs skill rn = .error e := by
  have htr : skill.pathTruthy = true := by
    simp [AgentSkill.pathTruthy, hpath, hsp]
  have hwalk : symlinkWalk fs rootSegs rel = true := by
    cases hw : symlinkWalk fs rootSegs rel
    · have := (symlinkWalk_false_iff fs rel rootSegs).mp hw k hk
      rw [this] at hsym
      cases hsym
    · rfl
  unfold _read_file_skill_resource
  rw [htr]
  simp only [Bool.not_true, Bool.false_eq_true, if_false, hpath, Option.getD_some]
  rw [within_of_parts hrootparts hfullparts]
  simp only [Bool.not_true, Bool.false_eq_true, if_false]
  cases hfile : fs.isFile (strSegs (normpath (pathJoin sp (_normalize_resource_path rn))))
  · exact ⟨_, rfl⟩
  · simp only [Bool.not_true, Bool.false_eq_true, if_false]
    rw [has_symlink_eq_walk fs hrootparts hrootsegs hfullparts, hwalk]
    exact ⟨_, rfl⟩

/-- Plain files are served: when the resolved path extends the skill root,
names an existing regular file, and no prefix below the root is a symlink,
the read returns the file's content. -/
theorem read_plain_ok (fs : FS) (skill : AgentSkill) (sp rn : String)
    (rootSegs rel : List String) (c : String)
    (hpath : skill.path = some sp) (hsp : sp ≠ "")
    (hrootparts : pathParts (normpath sp) = "/" :: rootSegs)
    (hrootsegs : strSegs (normpath sp) = rootSegs)
    (hfullparts : pathParts (normpath (pathJoin sp (_normalize_resource_path rn))) =
      "/" :: (rootSegs ++ rel))
    (hfullsegs : strSegs (normpath (pathJoin sp (_normalize_resource_path rn))) =
      rootSegs ++ rel)
    (hfind : fs.find (rootSegs ++ rel) = some (.file c))
    (hnosym : ∀ k, k < rel.length → fs.isSymlink (rootSegs ++ rel.take (k + 1)) = false) :
    _read_file_skill_resource fs skill rn = .ok c := by
  have htr : skill.pathTruthy = true := by
    simp [AgentSkill.pathTruthy, hpath, hsp]
  have hfile : fs.isFile (strSegs (normpath (pathJoin sp (_normalize_resource_path rn)))) =
      true := by
    rw [hfullsegs]
    unfold FS.isFile
    rw [hfind]
  have hwalk : symlinkWalk fs rootSegs rel = false :=
    (symlinkWalk_false_iff fs rel rootSegs).mpr hnosym
  unfold _read_file_skill_resource
  rw [htr]
  simp only [Bool.not_true, Bool.false_eq_true, if_false, hpath, Option.getD_some]
  rw [within_of_parts hrootparts hfullparts]
  simp only [Bool.not_true, Bool.false_eq_true, if_false]
  rw [hfile]
  simp only [Bool.not_true, Bool.false_eq_true, if_false]
  rw [has_symlink_eq_walk fs hrootparts hrootsegs hfullparts, hwalk]
  rw [hfullsegs]
  unfold FS.readText
  rw [hfind]

/-- Discovery-time exclusion: every identifier produced by
`_discover_resource_files` names a plain regular file below the skill
directory none of whose path prefixes below the directory is a symlink —
symlinked files, and files below symlinked directories, never appear. -/
theorem discover_resources_safe (fs : FS) (skill_dir exts : List String) (r : String)
    (hwf : fs.WF) (hrender : fs.renderOK = true)
    (hdirparts : pathParts (renderAbs skill_dir) = "/" :: skill_dir)
    (hdirsegs : strSegs (renderAbs skill_dir) = skill_dir)
    (hmem : r ∈ _discover_resource_files fs skill_dir exts) :
    ∃ (rel : List String) (c : String), rel ≠ [] ∧
      r = _normalize_resource_path (joinSlash rel) ∧
      fs.find (skill_dir ++ rel) = some (.file c) ∧
      ∀ k, k < rel.length → fs.isSymlink (skill_dir ++ rel.take (k + 1)) = false := by
  unfold _discover_resource_files at hmem
  rw [List.mem_filterMap] at hmem
  obtain ⟨e, hmemE, hf⟩ := hmem
  have hrenderE := (List.all_eq_true.mp hrender) e hmemE
  simp only [Bool.and_eq_true, decide_eq_true_eq] at hrenderE
  obtain ⟨⟨hnormfix, hparts⟩, hsegs⟩ := hrenderE
  split at hf
  · cases hf
  split at hf
  · cases hf
  split at hf
  · cases hf
  split at hf
  · cases hf
  rename_i hpre' hfile' hname' hext'
  simp only [hnormfix] at hf
  split at hf
  · cases hf
  rename_i hwithin'
  split at hf
  · cases hf
  · cases hf
  rename_i hok
  rw [Bool.not_eq_true, Bool.not_eq_false'] at hpre' hfile'
  rw [decide_eq_true_eq] at hpre'
  obtain ⟨hpre, hne⟩ := hpre'
  obtain ⟨t, ht⟩ := List.isPrefixOf_iff_prefix.mp hpre
  have htne : t ≠ [] := by
    intro hcon
    rw [hcon, List.append_nil] at ht
    exact hne ht.symm
  have hfullparts : pathParts (renderAbs e.1) = "/" :: (skill_dir ++ t) := by
    rw [hparts, ht]
  rw [has_symlink_eq_walk fs hdirparts hdirsegs hfullparts] at hok
  have hwalk : symlinkWalk fs skill_dir t = false := by
    have := Except.ok.inj hok
    exact this
  have hnosym := (symlinkWalk_false_iff fs t skill_dir).mp hwalk
  have hfind : fs.find e.1 = some e.2 := fs.find_of_mem hwf (by simpa using hmemE)
  have hrel : e.1.drop skill_dir.length = t := by
    rw [← ht, List.drop_left]
  have hnotslast : fs.isSymlink e.1 = false := by
    have hlen : t.length - 1 < t.length := by
      cases t with
      | nil => exact absurd rfl htne
      | cons a as => simp
    have h2 := hnosym (t.length - 1) hlen
    have htake : t.take (t.length - 1 + 1) = t := by
      have : t.length - 1 + 1 = t.length := by
        cases t with
        | nil => exact absurd rfl htne
        | cons a as => simp
      rw [this, List.take_length]
    rw [htake, ht] at h2
    exact h2
  have hfilec : ∃ c, e.2 = .file c := by
    unfold FS.isFile at hfile'
    unfold FS.isSymlink at hnotslast
    rw [hfind] at hfile' hnotslast
    cases h2 : e.2 with
    | file c => exact ⟨c, rfl⟩
    | dir => rw [h2] at hfile'; cases hfile'
    | symlinkFile c => rw [h2] at hnotslast; cases hnotslast
    | symlinkDir => rw [h2] at hfile'; cases hfile'
  obtain ⟨c, hc⟩ := hfilec
  refine ⟨t, c, htne, ?_, ?_, ?_⟩
  · rw [← hrel]
    exact (Option.some.inj hf).symm
  · rw [← ht, hc] at hfind
    exact hfind
  · intro k hk
    have := hnosym k hk
    exact this

/-- **C2.** Symlink escape protection, in three parts.
(1) Discovery: every resource identifier produced by
`_discover_resource_files` denotes a plain regular file whose path below the
skill root traverses no symlink — a resource that is itself a symlink, or
that lies below a symlinked directory, is excluded.
(2) Read time: a request whose resolved path extends the skill root by
components one of whose prefixes is a symlink is rejected with an error.
(3) A plain non-symlinked file under the skill root is read successfully,
never triggering the rejection. -/
theorem claim_C2_symlink_escape :
    (∀ (fs : FS) (skill_dir exts : List String) (r : String),
      fs.WF → fs.renderOK = true →
      pathParts (renderAbs skill_dir) = "/" :: skill_dir →
      strSegs (renderAbs skill_dir) = skill_dir →
      r ∈ _discover_resource_files fs skill_dir exts →
      ∃ (rel : List String) (c : String), rel ≠ [] ∧
        r = _normalize_resource_path (joinSlash rel) ∧
        fs.find (skill_dir ++ rel) = some (.file c) ∧
        ∀ k, k < rel.length → fs.isSymlink (skill_dir ++ rel.take (k + 1)) = false) ∧
    (∀ (fs : FS) (skill : AgentSkill) (sp rn : String)
      (rootSegs rel : List String) (k : Nat),
      skill.path = some sp → sp ≠ "" →
      pathParts (normpath sp) = "/" :: rootSegs →
      strSegs (normpath sp) = rootSegs →
      pathParts (normpath (pathJoin sp (_normalize_resource_path rn))) =
        "/" :: (rootSegs ++ rel) →
      k < rel.length →
      fs.isSymlink (rootSegs ++ rel.take (k + 1)) = true →
      ∃ e, _read_file_skill_resource fs skill rn = .error e) ∧
    (∀ (fs : FS) (skill : AgentSkill) (sp rn : String)
      (rootSegs rel : List String) (c : String),
      skill.path = some sp → sp ≠ "" →
      pathParts (normpath sp) = "/" :: rootSegs →
      strSegs (normpath sp) = rootSegs →
      pathParts (normpath (pathJoin sp (_normalize_resource_path rn))) =
        "/" :: (rootSegs ++ rel) →
      strSegs (normpath (pathJoin sp (_normalize_resource_path rn))) = rootSegs ++ rel →
      fs.find (rootSegs ++ rel) = some (.file c) →
      (∀ k, k < rel.length → fs.isSymlink (rootSegs ++ rel.take (k + 1)) = false) →
      _read_file_skill_resource fs skill rn = .ok c) :=
  ⟨fun fs d exts r hwf hr hp hsg hm => discover_resources_safe fs d exts r hwf hr hp hsg hm,
   fun fs sk sp rn rs rel k h1 h2 h3 h4 h5 h6 h7 =>
     read_rejects_symlink fs sk sp rn rs rel k h1 h2 h3 h4 h5 h6 h7,
   fun fs sk sp rn rs rel c h1 h2 h3 h4 h5 h6 h7 h8 =>
     read_plain_ok fs sk sp rn rs rel c h1 h2 h3 h4 h5 h6 h7 h8⟩

/-- Filesystem for the C2 witness: under `/skills/s` a plain file
`plain.md`, a symlinked file `link.md`, and a file `sub/inner.md` below a
symlinked directory `sub`. -/
def fsSym : FS := ⟨[
  (["skills", "s"], .dir),
  (["skills", "s", "plain.md"], .file "plain"),
  (["skills", "s", "link.md"], .symlinkFile "secret"),
  (["skills", "s", "sub"], .symlinkDir),
  (["skills", "s", "sub", "inner.md"], .file "inner")
]⟩

/-- The file-based skill rooted at `/skills/s` used in the C2 witness. -/
def skillS : AgentSkill :=
  { name := "s", description := "d", content := "body", path := some "/skills/s" }

/-- Witness for C2 on `fsSym`: the discovered identifier `plain.md` is a
safe plain file, the symlinked `link.md` and through-symlink `sub/inner.md`
reads are rejected, and the plain file's read succeeds. -/
theorem claim_C2_symlink_escape_witness :
    (∃ (rel : List String) (c : String), rel ≠ [] ∧
      "plain.md" = _normalize_resource_path (joinSlash rel) ∧
      fsSym.find (["skills", "s"] ++ rel) = some (.file c) ∧
      ∀ k, k < rel.length →
        fsSym.isSymlink (["skills", "s"] ++ rel.take (k + 1)) = false) ∧
    (∃ e, _read_file_skill_resource fsSym skillS "link.md" = .error e) ∧
    (∃ e, _read_file_skill_resource fsSym skillS "sub/inner.md" = .error e) ∧
    _read_file_skill_resource fsSym skillS "plain.md" = .ok "plain" :=
  ⟨claim_C2_symlink_escape.1 fsSym ["skills", "s"] DEFAULT_RESOURCE_EXTENSIONS
      "plain.md" (by unfold FS.WF; decide) (by rfl) (by decide) (by rfl) (by decide),
   claim_C2_symlink_escape.2.1 fsSym skillS "/skills/s" "link.md"
      ["skills", "s"] ["link.md"] 0 rfl (by decide) (by decide) (by rfl)
      (by decide) (by decide) (by rfl),
   claim_C2_symlink_escape.2.1 fsSym skillS "/skills/s" "sub/inner.md"
      ["skills", "s"] ["sub", "inner.md"] 0 rfl (by decide) (by decide) (by rfl)
      (by decide) (by decide) (by rfl),
   claim_C2_symlink_escape.2.2 fsSym skillS "/skills/s" "plain.md"
      ["skills", "s"] ["plain.md"] "plain" rfl (by decide) (by decide) (by rfl)
      (by decide) (by rfl) (by rfl) (by decide)⟩

/-! ### C7: discovery depth bound -/

/-- A child directory is its parent extended by one component. -/
theorem childDirs_shape (fs : FS) (d c : List String) (h : c ∈ fs.childDirs d) :
    ∃ s, c = d ++ [s] := by
  unfold FS.childDirs at h
  rw [List.mem_filterMap] at h
  obtain ⟨e, _, hf⟩ := h
  split at hf
  · rename_i hcond
    obtain ⟨hlen, hdrop, _⟩ := hcond
    have hne : e.1 ≠ [] := by
      intro hcon
      rw [hcon] at hlen
      simp at hlen
    refine ⟨e.1.getLast hne, ?_⟩
    rw [← Option.some.inj hf, ← hdrop]
    exact (List.dropLast_append_getLast hne).symm
  · cases hf

/-- Everything found by the bounded search lies at most `fuel` levels below
the directory it starts from. -/
theorem searchSkillDirs_depth (fs : FS) : ∀ (fuel : Nat) (dir d : List String),
    d ∈ searchSkillDirs fs fuel dir → ∃ rel, d = dir ++ rel ∧ rel.length ≤ fuel := by
  intro fuel
  induction fuel with
  | zero =>
    intro dir d hd
    unfold searchSkillDirs at hd
    split at hd
    · rw [List.mem_singleton] at hd
      exact ⟨[], by simp [hd]⟩
    · cases hd
  | succ n ih =>
    intro dir d hd
    unfold searchSkillDirs at hd
    rw [List.mem_append] at hd
    rcases hd with hd | hd
    · split at hd
      · rw [List.mem_singleton] at hd
        exact ⟨[], by simp [hd]⟩
      · cases hd
    · rw [List.mem_flatMap] at hd
      obtain ⟨c, hc, hdc⟩ := hd
      obtain ⟨s, hs⟩ := childDirs_shape fs dir c hc
      obtain ⟨rel, hrel, hlen⟩ := ih c d hdc
      refine ⟨s :: rel, ?_, ?_⟩
      · rw [hrel, hs, List.append_assoc]
        rfl
      · simp only [List.length_cons]
        omega

/-- The search reaches any directory two `iterdir` steps below its start
that directly contains `SKILL.md`. -/
theorem searchSkillDirs_finds_depth2 (fs : FS) (dir c1 c2 : List String)
    (h1 : c1 ∈ fs.childDirs dir) (h2 : c2 ∈ fs.childDirs c1)
    (hman : fs.isFile (c2 ++ [SKILL_FILE_NAME]) = true) :
    c2 ∈ searchSkillDirs fs 2 dir := by
  unfold searchSkillDirs
  rw [List.mem_append]
  right
  rw [List.mem_flatMap]
  refine ⟨c1, h1, ?_⟩
  unfold searchSkillDirs
  rw [List.mem_append]
  right
  rw [List.mem_flatMap]
  refine ⟨c2, h2, ?_⟩
  unfold searchSkillDirs
  rw [hman]
  exact List.mem_singleton.mpr rfl

/-- **C7.** Discovery depth bound: a directory two levels below a search
root that directly contains `SKILL.md` is discovered (the root itself being
depth 0), and everything discovered lies at most `MAX_SEARCH_DEPTH = 2`
levels below its root — so a manifest directory at depth 3 is never
discovered. -/
theorem claim_C7_depth_bound :
    (∀ (fs : FS) (roots : List String) (root : String) (c1 c2 : List String),
      root ∈ roots → isBlank root = false → fs.isDir (strSegs root) = true →
      c1 ∈ fs.childDirs (strSegs root) → c2 ∈ fs.childDirs c1 →
      fs.isFile (c2 ++ [SKILL_FILE_NAME]) = true →
      c2 ∈ _discover_skill_directories fs roots) ∧
    (∀ (fs : FS) (roots : List String) (d : List String),
      d ∈ _discover_skill_directories fs roots →
      ∃ (root : String) (rel : List String), root ∈ roots ∧
        d = strSegs root ++ rel ∧ rel.length ≤ MAX_SEARCH_DEPTH) := by
  constructor
  · intro fs roots root c1 c2 hmem hblank hdir h1 h2 hman
    unfold _discover_skill_directories
    rw [List.mem_flatMap]
    refine ⟨root, hmem, ?_⟩
    rw [hblank, hdir]
    simp only [Bool.false_or, Bool.not_true, Bool.false_eq_true, if_false]
    exact searchSkillDirs_finds_depth2 fs (strSegs root) c1 c2 h1 h2 hman
  · intro fs roots d hd
    unfold _discover_skill_directories at hd
    rw [List.mem_flatMap] at hd
    obtain ⟨root, hroot, hmem⟩ := hd
    split at hmem
    · cases hmem
    · obtain ⟨rel, hrel, hlen⟩ := searchSkillDirs_depth fs MAX_SEARCH_DEPTH
        (strSegs root) d hmem
      exact ⟨root, rel, hroot, hrel, hlen⟩

/-- Filesystem for the C7 witness: a manifest at depth 2 (`root/l1/l2`) and
another at depth 3 (`root/l1/l2/l3`). -/
def fsDeep : FS := ⟨[
  (["root"], .dir),
  (["root", "l1"], .dir),
  (["root", "l1", "l2"], .dir),
  (["root", "l1", "l2", "SKILL.md"], .file "m2"),
  (["root", "l1", "l2", "l3"], .dir),
  (["root", "l1", "l2", "l3", "SKILL.md"], .file "m3")
]⟩

/-- Witness for C7 on `fsDeep`: `root/l1/l2` is discovered, every
discovered directory is within depth 2 of a root, and the depth-3 directory
is not discovered. -/
theorem claim_C7_depth_bound_witness :
    ["root", "l1", "l2"] ∈ _discover_skill_directories fsDeep ["/root"] ∧
    (∀ d : List String, d ∈ _discover_skill_directories fsDeep ["/root"] →
      ∃ (root : String) (rel : List String), root ∈ ["/root"] ∧
        d = strSegs root ++ rel ∧ rel.length ≤ MAX_SEARCH_DEPTH) ∧
    ["root", "l1", "l2", "l3"] ∉ _discover_skill_directories fsDeep ["/root"] :=
  ⟨claim_C7_depth_bound.1 fsDeep ["/root"] "/root" ["root", "l1"]
      ["root", "l1", "l2"] (by decide) (by decide) (by rfl) (by decide) (by decide)
      (by rfl),
   claim_C7_depth_bound.2 fsDeep ["/root"],
   by decide⟩

/-! ### C6: duplicate-name precedence -/

/-- The registration step shared by file-based and code-defined loading: a
skill is appended only when a guard passes and its name is not yet
registered. -/
def registerStep (g : AgentSkill → Bool) (acc : List AgentSkill) (sk : AgentSkill) :
    List AgentSkill :=
  if g sk then acc
  else if containsName acc sk.name then acc else acc ++ [sk]

/-- A name already registered keeps its entry through any sequence of
registration steps: later skills with the same name never overwrite. -/
theorem lookup_foldl_of_some (g : AgentSkill → Bool) :
    ∀ (sks acc : List AgentSkill) (name : String) (s : AgentSkill),
    lookupSkill acc name = some s →
    lookupSkill (sks.foldl (registerStep g) acc) name = some s := by
  intro sks
  induction sks with
  | nil => intro acc name s h; exact h
  | cons sk sks ih =>
    intro acc name s h
    rw [List.foldl_cons]
    refine ih (registerStep g acc sk) name s ?_
    unfold registerStep
    split
    · exact h
    · split
      · exact h
      · unfold lookupSkill at h ⊢
        rw [List.find?_append, h]
        rfl

/-- Starting from a registry without the name, the surviving entry is the
first non-dropped skill bearing it. -/
theorem lookup_foldl_of_none (g : AgentSkill → Bool) :
    ∀ (sks acc : List AgentSkill) (name : String),
    lookupSkill acc name = none →
    lookupSkill (sks.foldl (registerStep g) acc) name =
      (sks.filter (fun sk => !g sk)).find? (fun s => s.name = name) := by
  intro sks
  induction sks with
  | nil => intro acc name h; simpa using h
  | cons sk sks ih =>
    intro acc name h
    rw [List.foldl_cons]
    by_cases hg : g sk = true
    · have hstep : registerStep g acc sk = acc := by
        unfold registerStep
        rw [if_pos hg]
      rw [hstep, ih acc name h, List.filter_cons]
      rw [hg]
      simp
    · rw [Bool.not_eq_true] at hg
      have hfilter : (sk :: sks).filter (fun sk => !g sk) =
          sk :: sks.filter (fun sk => !g sk) := by
        rw [List.filter_cons, hg]
        simp
      rw [hfilter]
      by_cases hn : sk.name = name
      · have hcn : containsName acc sk.name = false := by
          unfold containsName
          rw [hn, h]
          rfl
        have hstep : registerStep g acc sk = acc ++ [sk] := by
          unfold registerStep
          rw [hg, hcn]
          simp
        rw [hstep]
        have hacc : lookupSkill (acc ++ [sk]) name = some sk := by
          unfold lookupSkill at h ⊢
          rw [List.find?_append, h]
          simp [List.find?, hn]
        rw [lookup_foldl_of_some g sks (acc ++ [sk]) name sk hacc]
        rw [List.find?_cons_of_pos _ (by simpa using hn)]
      · have hstep2 : lookupSkill (registerStep g acc sk) name = none := by
          unfold registerStep
          split
          · exact h
          · split
            · exact h
            · unfold lookupSkill at h ⊢
              rw [List.find?_append, h]
              simp [List.find?, hn]
        rw [ih _ name hstep2]
        rw [List.find?_cons_of_neg _ (by simpa using hn)]

/-- The guard under which a code-defined skill is dropped: failed metadata
validation. -/
def codeGuard (sk : AgentSkill) : Bool :=
  (_validate_skill_metadata (some sk.name) (some sk.description) "code skill").isSome

/-- `_load_skills` is the registration fold of the code-defined skills over
the file-based registry. -/
theorem load_skills_eq_foldl (fs : FS) (paths : Option (List String))
    (code : List AgentSkill) (exts : List String) :
    _load_skills fs paths code exts =
      code.foldl (registerStep codeGuard) (_discover_file_skills fs paths exts) := rfl

/-- `_discover_file_skills` is the registration fold (with no guard) of the
successfully parsed skills, in discovery order. -/
theorem discover_file_skills_eq_foldl (fs : FS) (paths : List String)
    (exts : List String) :
    _discover_file_skills fs (some paths) exts =
      ((_discover_skill_directories fs paths).filterMap
        (buildFileSkill fs exts)).foldl (registerStep (fun _ => false)) [] := by
  have h : ∀ (dirs : List (List String)) (acc : List AgentSkill),
      dirs.foldl (fun acc dir =>
        match buildFileSkill fs exts dir with
        | none => acc
        | some sk => if containsName acc sk.name then acc else acc ++ [sk]) acc =
      (dirs.filterMap (buildFileSkill fs exts)).foldl
        (registerStep (fun _ => false)) acc := by
    intro dirs
    induction dirs with
    | nil => intro acc; rfl
    | cons d ds ih =>
      intro acc
      rw [List.foldl_cons, List.filterMap_cons]
      cases hb : buildFileSkill fs exts d with
      | none => exact ih acc
      | some sk =>
        rw [List.foldl_cons]
        exact ih _
  exact h (_discover_skill_directories fs paths) []

/-- Appended names stay distinct through the registration fold. -/
theorem names_nodup_foldl (g : AgentSkill → Bool) :
    ∀ (sks acc : List AgentSkill),
    (acc.map (fun s => s.name)).Nodup →
    ((sks.foldl (registerStep g) acc).map (fun s => s.name)).Nodup := by
  intro sks
  induction sks with
  | nil => intro acc h; exact h
  | cons sk sks ih =>
    intro acc h
    rw [List.foldl_cons]
    refine ih (registerStep g acc sk) ?_
    unfold registerStep
    split
    · exact h
    · split
      · exact h
      · rename_i hcn
        rw [Bool.not_eq_true] at hcn
        have hnotin : sk.name ∉ acc.map (fun s => s.name) := by
          intro hmem
          rw [List.mem_map] at hmem
          obtain ⟨s, hsmem, hseq⟩ := hmem
          unfold containsName lookupSkill at hcn
          have hnone : acc.find? (fun s => s.name = sk.name) = none := by
            cases hf : acc.find? (fun s => s.name = sk.name) with
            | none => rfl
            | some v => rw [hf] at hcn; cases hcn
          rw [List.find?_eq_none] at hnone
          exact hnone s hsmem (by simpa using hseq)
        rw [List.map_append]
        refine List.Nodup.append h (by simp) ?_
        intro a ha hb
        rw [List.map_singleton, List.mem_singleton] at hb
        exact hnotin (hb ▸ ha)

/-- **C6.** Duplicate-name precedence.
(1) For file-based skills the registry entry under any name is the *first*
successfully parsed skill carrying it, in discovery order (later duplicates
are skipped).
(2) When a name is already present in the file-based registry, merging
code-defined skills leaves its entry unchanged — a colliding code-defined
skill is dropped, never overwriting or merging.
(3) Registry names are always distinct. -/
theorem claim_C6_duplicate_precedence :
    (∀ (fs : FS) (paths : List String) (exts : List String) (name : String),
      lookupSkill (_discover_file_skills fs (some paths) exts) name =
        ((_discover_skill_directories fs paths).filterMap
          (buildFileSkill fs exts)).find? (fun s => s.name = name)) ∧
    (∀ (fs : FS) (paths : Option (List String)) (code : List AgentSkill)
      (exts : List String) (name : String),
      containsName (_discover_file_skills fs paths exts) name = true →
      lookupSkill (_load_skills fs paths code exts) name =
        lookupSkill (_discover_file_skills fs paths exts) name) ∧
    (∀ (fs : FS) (paths : Option (List String)) (code : List AgentSkill)
      (exts : List String),
      ((_load_skills fs paths code exts).map (fun s => s.name)).Nodup) := by
  refine ⟨?_, ?_, ?_⟩
  · intro fs paths exts name
    rw [discover_file_skills_eq_foldl]
    rw [lookup_foldl_of_none (fun _ => false) _ [] name rfl]
    simp
  · intro fs paths code exts name hc
    unfold containsName at hc
    rw [Option.isSome_iff_exists] at hc
    obtain ⟨s, hs⟩ := hc
    rw [load_skills_eq_foldl]
    rw [lookup_foldl_of_some codeGuard code _ name s hs, hs]
  · intro fs paths code exts
    rw [load_skills_eq_foldl]
    refine names_nodup_foldl codeGuard code _ ?_
    cases paths with
    | none => simp [_discover_file_skills]
    | some ps =>
      rw [discover_file_skills_eq_foldl]
      exact names_nodup_foldl (fun _ => false) _ [] (by simp)

/-- Filesystem for the C6 witness: two roots each holding a skill whose
manifest declares the same name `dup`, with different descriptions. -/
def fsDup : FS := ⟨[
  (["r1"], .dir),
  (["r1", "a"], .dir),
  (["r1", "a", "SKILL.md"], .file "---\nname: dup\ndescription: First.\n---\nA"),
  (["r2"], .dir),
  (["r2", "b"], .dir),
  (["r2", "b", "SKILL.md"], .file "---\nname: dup\ndescription: Second.\n---\nB")
]⟩

/-- A code-defined skill colliding with the file-based `dup`. -/
def codeDup : AgentSkill :=
  { name := "dup", description := "Code description.", content := "code body" }

/-- Witness for C6 on `fsDup`: the lookup equations and distinctness at the
concrete duplicate scenario, plus evaluation showing the first-discovered
description `First.` survives both folds. -/
theorem claim_C6_duplicate_precedence_witness :
    lookupSkill (_discover_file_skills fsDup (some ["/r1", "/r2"])
        DEFAULT_RESOURCE_EXTENSIONS) "dup" =
      ((_discover_skill_directories fsDup ["/r1", "/r2"]).filterMap
        (buildFileSkill fsDup DEFAULT_RESOURCE_EXTENSIONS)).find?
          (fun s => s.name = "dup") ∧
    lookupSkill (_load_skills fsDup (some ["/r1", "/r2"]) [codeDup]
        DEFAULT_RESOURCE_EXTENSIONS) "dup" =
      lookupSkill (_discover_file_skills fsDup (some ["/r1", "/r2"])
        DEFAULT_RESOURCE_EXTENSIONS) "dup" ∧
    ((_load_skills fsDup (some ["/r1", "/r2"]) [codeDup]
        DEFAULT_RESOURCE_EXTENSIONS).map (fun s => s.name)).Nodup ∧
    (lookupSkill (_load_skills fsDup (some ["/r1", "/r2"]) [codeDup]
        DEFAULT_RESOURCE_EXTENSIONS) "dup").map (fun s => s.description) =
      some "First." :=
  ⟨claim_C6_duplicate_precedence.1 fsDup ["/r1", "/r2"]
      DEFAULT_RESOURCE_EXTENSIONS "dup",
   claim_C6_duplicate_precedence.2.1 fsDup (some ["/r1", "/r2"]) [codeDup]
      DEFAULT_RESOURCE_EXTENSIONS "dup" (by rfl),
   claim_C6_duplicate_precedence.2.2 fsDup (some ["/r1", "/r2"]) [codeDup]
      DEFAULT_RESOURCE_EXTENSIONS,
   by rfl⟩

/-! ### C9: instruction rendering -/

/-- Python string `≤` is total. -/
theorem charsLe_total : ∀ a b : List Char, charsLe a b = true ∨ charsLe b a = true := by
  intro a
  induction a with
  | nil => intro b; left; rfl
  | cons x xs ih =>
    intro b
    cases b with
    | nil => right; rfl
    | cons y ys =>
      simp only [charsLe, Bool.or_eq_true, Bool.and_eq_true, decide_eq_true_eq]
      rcases Nat.lt_trichotomy x.toNat y.toNat with h | h | h
      · left; left; exact h
      · rcases ih ys with h2 | h2
        · left; right; exact ⟨h, h2⟩
        · right; right; exact ⟨h.symm, h2⟩
      · right; left; exact h

/-- Python string `≤` is transitive. -/
theorem charsLe_trans : ∀ a b c : List Char,
    charsLe a b = true → charsLe b c = true → charsLe a c = true := by
  intro a
  induction a with
  | nil => intro b c _ _; rfl
  | cons x xs ih =>
    intro b c hab hbc
    cases b with
    | nil => cases hab
    | cons y ys =>
      cases c with
      | nil => cases hbc
      | cons z zs =>
        simp only [charsLe, Bool.or_eq_true, Bool.and_eq_true,
          decide_eq_true_eq] at hab hbc ⊢
        rcases hab with h1 | ⟨h1, h1r⟩ <;> rcases hbc with h2 | ⟨h2, h2r⟩
        · left; omega
        · left; omega
        · left; omega
        · right; exact ⟨by omega, ih ys zs h1r h2r⟩

/-- Insertion produces a permutation. -/
theorem insertByName_perm (x : AgentSkill) :
    ∀ l, List.Perm (insertByName x l) (x :: l) := by
  intro l
  induction l with
  | nil => exact List.Perm.refl _
  | cons y ys ih =>
    unfold insertByName
    split
    · exact List.Perm.refl _
    · exact List.Perm.trans (List.Perm.cons y ih) (List.Perm.swap x y ys)

/-- The sort produces a permutation of the registry. -/
theorem sortByName_perm : ∀ l : List AgentSkill, List.Perm (sortByName l) l := by
  intro l
  induction l with
  | nil => exact List.Perm.refl _
  | cons x xs ih =>
    exact List.Perm.trans (insertByName_perm x (sortByName xs)) (List.Perm.cons x ih)

/-- Insertion preserves ascending name order. -/
theorem insertByName_sorted (x : AgentSkill) :
    ∀ l, l.Pairwise (fun a b => nameLe a b = true) →
    (insertByName x l).Pairwise (fun a b => nameLe a b = true) := by
  intro l
  induction l with
  | nil => intro _; simp [insertByName]
  | cons y ys ih =>
    intro hp
    rw [List.pairwise_cons] at hp
    obtain ⟨hy, hys⟩ := hp
    unfold insertByName
    split
    · rename_i hxy
      rw [List.pairwise_cons]
      refine ⟨?_, List.pairwise_cons.mpr ⟨hy, hys⟩⟩
      intro b hb
      rcases List.mem_cons.mp hb with rfl | hb2
      · exact hxy
      · exact charsLe_trans _ _ _ hxy (hy b hb2)
    · rename_i hxy
      have hyx : nameLe y x = true := by
        rcases charsLe_total x.name.data y.name.data with h | h
        · exact absurd h hxy
        · exact h
      rw [List.pairwise_cons]
      refine ⟨?_, ih hys⟩
      intro b hb
      have hmem := (insertByName_perm x ys).mem_iff.mp hb
      rcases List.mem_cons.mp hmem with rfl | hb2
      · exact hyx
      · exact hy b hb2

/-- The sorted registry is ascending by name. -/
theorem sortByName_sorted : ∀ l : List AgentSkill,
    (sortByName l).Pairwise (fun a b => nameLe a b = true) := by
  intro l
  induction l with
  | nil => exact List.Pairwise.nil
  | cons x xs ih => exact insertByName_sorted x (sortByName xs) ih

/-- **C9.** Instruction rendering.  With the default template (and likewise
with any accepted custom template): the result is absent exactly when the
registry is empty; otherwise the advertisement is the template with the
`{skills}` placeholder replaced by four lines per skill — name and
description XML-escaped via `xml_escape` inside `skillEntryLines` — listed
in ascending name order over a permutation of the registry. -/
theorem claim_C9_instruction_rendering :
    (∀ skills : List AgentSkill,
      (_create_instructions none skills = .ok none ↔ skills = []) ∧
      (skills ≠ [] →
        _create_instructions none skills =
          (formatString DEFAULT_SKILLS_INSTRUCTION_PROMPT
            (joinNL ((sortByName skills).flatMap skillEntryLines))).map some ∧
        (sortByName skills).Perm skills ∧
        (sortByName skills).Pairwise (fun a b => nameLe a b = true))) ∧
    (∀ s : AgentSkill, skillEntryLines s =
      ["  <skill>",
       "    <name>" ++ xml_escape s.name ++ "</name>",
       "    <description>" ++ xml_escape s.description ++ "</description>",
       "  </skill>"]) ∧
    (∀ (t : String) (skills : List AgentSkill) (r : Option String),
      _create_instructions (some t) skills = .ok r →
      ((r = none ↔ skills = []) ∧
        (skills ≠ [] → ∃ out, r = some out ∧
          formatString t (joinNL ((sortByName skills).flatMap skillEntryLines)) =
            .ok out))) := by
  refine ⟨?_, fun s => rfl, ?_⟩
  · intro skills
    constructor
    · constructor
      · intro h
        simp only [_create_instructions] at h
        by_cases he : skills.isEmpty = true
        · exact List.isEmpty_iff.mp he
        · rw [Bool.not_eq_true] at he
          rw [he] at h
          simp only [Bool.false_eq_true, if_false] at h
          cases hf : formatString DEFAULT_SKILLS_INSTRUCTION_PROMPT
              (joinNL ((sortByName skills).flatMap skillEntryLines)) with
          | ok out => rw [hf] at h; cases h
          | error e => rw [hf] at h; cases h
      · intro h
        subst h
        rfl
    · intro hne
      have he : skills.isEmpty = false := by
        cases hi : skills.isEmpty
        · rfl
        · exact absurd (List.isEmpty_iff.mp hi) hne
      refine ⟨?_, sortByName_perm skills, sortByName_sorted skills⟩
      simp only [_create_instructions]
      rw [he]
      simp only [Bool.false_eq_true, if_false]
      cases hf : formatString DEFAULT_SKILLS_INSTRUCTION_PROMPT
          (joinNL ((sortByName skills).flatMap skillEntryLines)) with
      | ok out => rfl
      | error e => rfl
  · intro t skills r hr
    simp only [_create_instructions] at hr
    cases hp : formatString t "__PROBE__" with
    | error e => rw [hp] at hr; cases hr
    | ok probe =>
      rw [hp] at hr
      dsimp only at hr
      by_cases hc : containsSub probe "__PROBE__" = true
      · rw [hc] at hr
        simp only [Bool.not_true, Bool.false_eq_true, if_false] at hr
        constructor
        · constructor
          · intro hrn
            by_cases he : skills.isEmpty = true
            · exact List.isEmpty_iff.mp he
            · rw [Bool.not_eq_true] at he
              rw [he] at hr
              simp only [Bool.false_eq_true, if_false] at hr
              cases hf : formatString t
                  (joinNL ((sortByName skills).flatMap skillEntryLines)) with
              | ok out =>
                rw [hf] at hr
                cases hr
                cases hrn
              | error e => rw [hf] at hr; cases hr
          · intro h
            subst h
            simp only [List.isEmpty_nil, if_true] at hr
            exact (Except.ok.inj hr).symm
        · intro hne
          have he : skills.isEmpty = false := by
            cases hi : skills.isEmpty
            · rfl
            · exact absurd (List.isEmpty_iff.mp hi) hne
          rw [he] at hr
          simp only [Bool.false_eq_true, if_false] at hr
          cases hf : formatString t
              (joinNL ((sortByName skills).flatMap skillEntryLines)) with
          | ok out =>
            rw [hf] at hr
            exact ⟨out, (Except.ok.inj hr).symm, rfl⟩
          | error e => rw [hf] at hr; cases hr
      · rw [Bool.not_eq_true] at hc
        rw [hc] at hr
        simp only [Bool.not_false, if_true] at hr
        cases hr

/-- Registry for the C9 witness: two skills in anti-alphabetical order with
XML-special characters in their descriptions. -/
def skillsC9 : List AgentSkill :=
  [{ name := "z-skill", description := "Z <desc>", content := "zb" },
   { name := "a-skill", description := "A & b", content := "ab" }]

/-- Expected advertisement for the custom template of the C9 witness. -/
def outC9 : String :=
  "pre " ++ joinNL ((sortByName skillsC9).flatMap skillEntryLines) ++ " post"

/-- Witness for C9 on `skillsC9`: non-absence and shape with the default
template, and the custom-template substitution at `pre {skills} post`. -/
theorem claim_C9_instruction_rendering_witness :
    (_create_instructions none skillsC9 = .ok none ↔ skillsC9 = []) ∧
    (_create_instructions none skillsC9 =
      (formatString DEFAULT_SKILLS_INSTRUCTION_PROMPT
        (joinNL ((sortByName skillsC9).flatMap skillEntryLines))).map some ∧
      (sortByName skillsC9).Perm skillsC9 ∧
      (sortByName skillsC9).Pairwise (fun a b => nameLe a b = true)) ∧
    (∃ out, some outC9 = some out ∧
      formatString "pre {skills} post"
        (joinNL ((sortByName skillsC9).flatMap skillEntryLines)) = .ok out) :=
  ⟨(claim_C9_instruction_rendering.1 skillsC9).1,
   (claim_C9_instruction_rendering.1 skillsC9).2 (by simp [skillsC9]),
   (claim_C9_instruction_rendering.2.2 "pre {skills} post" skillsC9 (some outC9)
      (by rfl)).2 (by simp [skillsC9])⟩

end AgentSkills
